import Mathlib

/-!
Verification of the depot-locations repository (src/country.py).

The Python program is shallowly embedded here:

* Python floats are idealised as real numbers (`ℝ`); `math.sqrt`, `math.cos`
  and `math.pi` become `Real.sqrt`, `Real.cos` and `Real.pi`.
* Python exceptions become `Except PyErr`, where `PyErr` records the Python
  exception class (`TypeError`, `ValueError`, `IndexError`, `KeyError`).
* Dynamically typed arguments (where the Python code inspects the runtime
  type of a value) are embedded as the inductive `PyVal`.
* Python's `set` of `Location`s is modelled by lists deduplicated under
  `Location.__eq__` (name+region equality); the one place the program reads
  a set in arbitrary iteration order (`list(unvisited)` in `nn_tour`, and
  iteration over `locations_to_check` in `fastest_trip_from`) feeds a
  selection that is invariant under reordering, because the selection key
  `(time, name, region)` is injective on sets of name+region-distinct
  locations, so the model fixes first-insertion order.
-/

/-- Python exception classes raised by the embedded code. -/
inductive PyErr where
  | typeError (msg : String)
  | valueError (msg : String)
  | indexError (msg : String)
  | keyError (msg : String)
deriving DecidableEq

/-- True iff the exception is a `TypeError` (a "type-class" error). -/
def PyErr.isTypeErr : PyErr → Bool
  | .typeError _ => true
  | _ => false

/-- True iff the exception is a `ValueError` (a "value-class" error). -/
def PyErr.isValueErr : PyErr → Bool
  | .valueError _ => true
  | _ => false

/-- A `Location` record: `name`, `region`, polar coordinates `r`/`theta`
(stored as Python floats, idealised as reals) and the `depot` flag. -/
structure Location where
  name : String
  region : String
  r : ℝ
  theta : ℝ
  depot : Bool

/-- `Location.__eq__`: two Locations are equal iff name and region match
exactly; `r`, `theta` and the depot flag play no part. -/
def locEq (a b : Location) : Bool :=
  a.name == b.name && a.region == b.region

/-- Python `x in collection` membership test, elementwise via
`Location.__eq__`. -/
def eqMem (x : Location) (l : List Location) : Bool :=
  l.any (fun y => locEq x y)

/-- `Location.__hash__`: `hash(self.name + self.region)`. -/
def locHash (l : Location) : UInt64 :=
  (l.name ++ l.region).hash

/-- `Location.distance_to` on an argument that is statically known to be a
`Location`: the law-of-cosines distance
`sqrt(r1^2 + r2^2 - 2 r1 r2 cos(theta1 - theta2))`. -/
noncomputable def Location.distanceTo (a b : Location) : ℝ :=
  Real.sqrt (a.r ^ 2 + b.r ^ 2 - 2 * a.r * b.r * Real.cos (a.theta - b.theta))

/-- A dynamically typed Python value, for the argument positions where the
source inspects runtime types (`Location.__init__`, `Location.distance_to`). -/
inductive PyVal where
  | str (s : String)
  | int (n : ℤ)
  | float (x : ℝ)
  | bool (b : Bool)
  | none
  | locV (l : Location)

/-- True iff the value is a `Location` instance. -/
def PyVal.isLocV : PyVal → Bool
  | .locV _ => true
  | _ => false

/-- `Location.distance_to` with a dynamically typed argument: the source
raises `ValueError("Distance_to requires another Location object.")` when
`other` is not a `Location` instance. -/
noncomputable def Location.distance_toPy (self : Location) (other : PyVal) :
    Except PyErr ℝ :=
  match other with
  | .locV l => .ok (self.distanceTo l)
  | _ => .error (.valueError "Distance_to requires another Location object.")

/-- Python's builtin `float(x)` conversion, with its exception classes:
`TypeError` for values of non-numeric, non-string type (e.g. `None`),
`ValueError` for strings that do not parse as a number.  (Python's `float`
accepts more textual formats than integer literals; for the claims below
only integer-literal strings and non-numeric strings matter, so string
parsing is modelled by `String.toInt?`.) -/
def pyFloat : PyVal → Except PyErr ℝ
  | .float x => .ok x
  | .int n => .ok (n : ℝ)
  | .bool b => .ok (if b then 1 else 0)
  | .str s =>
    match s.toInt? with
    | some n => .ok (n : ℝ)
    | Option.none => .error (.valueError "could not convert string to float")
  | .none => .error (.typeError "float() argument must be a string or a real number, not NoneType")
  | .locV _ => .error (.typeError "float() argument must be a string or a real number, not Location")

/-- Python `str.capitalize()`: first character uppercased, the rest
lowercased. -/
def pyCapitalize (s : String) : String :=
  match s.toList with
  | [] => ""
  | c :: cs => String.mk (c.toUpper :: cs.map Char.toLower)

/-- The source's name normalisation:
`' '.join(word.capitalize() for word in name.split())`. -/
def pyTitle (s : String) : String :=
  String.intercalate " "
    (((s.split Char.isWhitespace).filter (fun w => w ≠ "")).map pyCapitalize)

/-- `Location.__init__` with dynamically typed arguments, following the
source's validation order: depot flag type, `float(r)` (only `ValueError`
is caught and re-raised; a `TypeError` from the conversion propagates),
`r < 0`, `float(theta)` likewise, theta range, then name/region types,
then normalisation (the `warnings.warn` notices are side channels and are
not modelled). -/
noncomputable def Location.init (name region r theta depot : PyVal) :
    Except PyErr Location :=
  match depot with
  | .bool d =>
    match pyFloat r with
    | .error (.valueError _) => .error (.valueError "R must be convertible to float.")
    | .error e => .error e
    | .ok rv =>
      if rv < 0 then .error (.valueError "R must be non-negative.") else
      match pyFloat theta with
      | .error (.valueError _) => .error (.valueError "Theta must be convertible to float")
      | .error e => .error e
      | .ok tv =>
        if tv < -Real.pi ∨ tv > Real.pi then
          .error (.valueError "Theta must be between -pi and pi")
        else
          match name, region with
          | .str n, .str rg => .ok ⟨pyTitle n, pyTitle rg, rv, tv, d⟩
          | _, _ => .error (.typeError "Name and region must be strings")
  | _ => .error (.typeError "Depot must be a boolean value.")

/-- The module-level `travel_time` function.  `different_regions` is kept as
a real number (the source accepts `0`, `1`, `0.0`, `1.0`, which the
embedding identifies); `locations_in_dest_region` is an integer (the
source applies `int(...)` to it, identity on integers). -/
noncomputable def travel_time (distance different_regions : ℝ)
    (locations_in_dest_region : ℤ) (speed : ℝ) : Except PyErr ℝ :=
  if distance < 0 then
    .error (.valueError "Distance must be a non-negative number.")
  else if ¬(different_regions = 0 ∨ different_regions = 1) then
    .error (.valueError "Different_regions must be 0, 1, 0.0, or 1.0.")
  else
    .ok ((1 / 3600) * (distance / speed) *
      (1 + (different_regions * ((max 1 locations_in_dest_region : ℤ) : ℝ)) / 10))

/-- A `Country`: the tuple `_all_locations`, together with the invariant
established by `Country.__init__` (no two members equal under
`Location.__eq__`), which every reachable `Country` object satisfies. -/
structure Country where
  all_locations : List Location
  nodup : all_locations.Pairwise (fun a b => locEq a b = false)

/-- `Country.settlements`: the non-depot members, in storage order. -/
def Country.settlements (c : Country) : List Location :=
  c.all_locations.filter (fun l => !l.depot)

/-- `Country.depots`: the depot members, in storage order. -/
def Country.depots (c : Country) : List Location :=
  c.all_locations.filter (fun l => l.depot)

/-- `Country.travel_time`: membership checks (Python `in`, elementwise
`__eq__`), distance via `Location.distance_to`, region crossing flag,
destination-region count over all members, then the module-level
`travel_time` at the default speed 4.75. -/
noncomputable def Country.travelTime (c : Country) (s e : Location) :
    Except PyErr ℝ :=
  if eqMem s c.all_locations = false then
    .error (.valueError "start is not in the Country.")
  else if eqMem e c.all_locations = false then
    .error (.valueError "end is not in the Country.")
  else
    travel_time (s.distanceTo e)
      (if s.region ≠ e.region then 1 else 0)
      ((c.all_locations.filter (fun l => l.region == e.region)).length : ℤ)
      4.75

/-- `Country.__init__`: raises `ValueError` when the input list contains two
Locations equal under `Location.__eq__`, otherwise stores the list as a
tuple.  (The source detects duplicates as `len(set(list)) != len(list)`,
which holds exactly when the list is not pairwise distinct under
`Location.__eq__`.) -/
def Country.init (locs : List Location) : Except PyErr Country :=
  if h : locs.Pairwise (fun a b => locEq a b = false) then .ok ⟨locs, h⟩
  else .error (.valueError "Duplicate locations found in the input list")

/-- Python `set` construction from a list of Locations: keep the first
occurrence of each `Location.__eq__`-class, drop later duplicates. -/
def dedupLoc : List Location → List Location
  | [] => []
  | x :: xs => x :: dedupLoc (xs.filter (fun y => !(locEq x y)))
termination_by l => l.length
decreasing_by
  simpa using Nat.lt_succ_of_le (List.length_filter_le _ _)

/-- The strict version of the sort key used in `fastest_trip_from`:
`(time, name, region)` compared lexicographically (as Python compares the
tuples built by the `key` lambda). -/
def tripLt (p q : Location × ℝ) : Prop :=
  p.2 < q.2 ∨ (p.2 = q.2 ∧
    (p.1.name < q.1.name ∨ (p.1.name = q.1.name ∧ p.1.region < q.1.region)))

noncomputable instance : ∀ p q : Location × ℝ, Decidable (tripLt p q) := by
  intro p q
  unfold tripLt
  infer_instance

/-- `sorted(travel_times, key = lambda x: (x[1], x[0].name, x[0].region))[0]`:
the head of a stable sort by an injective-on-the-input key is the first
element attaining the minimum key, computed here as a left fold keeping the
incumbent on non-strict comparisons. -/
noncomputable def pickMin : List (Location × ℝ) → Option (Location × ℝ)
  | [] => Option.none
  | x :: xs => some (xs.foldl (fun best y => if tripLt y best then y else best) x)

/-- The travel-time collection loop of `fastest_trip_from`: compute
`self.travel_time(current, loc)` for each candidate, silently skipping
candidates that raise `ValueError` (the only class the source catches). -/
noncomputable def tripTimes (c : Country) (current : Location) :
    List Location → Except PyErr (List (Location × ℝ))
  | [] => .ok []
  | l :: ls =>
    match c.travelTime current l with
    | .ok t => (tripTimes c current ls).map (fun ts => (l, t) :: ts)
    | .error (.valueError _) => tripTimes c current ls
    | .error e => .error e

/-- The candidate-processing loop of `fastest_trip_from`: each element is
either a `Location` or an integer index into `settlements`; out-of-range
indices (negative included) raise `IndexError`. -/
def resolveCandidates (c : Country) :
    List (Location ⊕ ℤ) → Except PyErr (List Location)
  | [] => .ok []
  | (Sum.inl l) :: rest => (resolveCandidates c rest).map (fun ls => l :: ls)
  | (Sum.inr i) :: rest =>
    if h : 0 ≤ i ∧ i < (c.settlements.length : ℤ) then
      (resolveCandidates c rest).map
        (fun ls => c.settlements.get ⟨i.toNat, by omega⟩ :: ls)
    else .error (.indexError "Settlement index out of bounds")

/-- The core of `Country.fastest_trip_from` once candidates are resolved to
Locations: deduplicate (set semantics), discard `current`, return `None`
when nothing remains, otherwise return the first minimum of the
`(time, name, region)` sort (also `None` when every candidate was skipped). -/
noncomputable def fastestTripFromList (c : Country) (current : Location)
    (cands : List Location) : Except PyErr (Option (Location × ℝ)) :=
  let remaining := (dedupLoc cands).filter (fun l => !(locEq l current))
  if remaining.isEmpty then .ok Option.none
  else (tripTimes c current remaining).map pickMin

/-- `Country.fastest_trip_from`: `potential_locations = None` defaults to all
settlements; mixed Location/index candidates are resolved, then the core
selection runs. -/
noncomputable def Country.fastestTripFrom (c : Country) (current : Location)
    (potential : Option (List (Location ⊕ ℤ))) :
    Except PyErr (Option (Location × ℝ)) :=
  match resolveCandidates c
      (match potential with
       | Option.none => c.settlements.map Sum.inl
       | some l => l) with
  | .error e => .error e
  | .ok cands => fastestTripFromList c current cands

/-- Python `set.remove(x)`: delete the (unique, in a set) element equal to
`x` under `Location.__eq__`; here, the first such element of the list. -/
def erasePLoc (l : List Location) (x : Location) : List Location :=
  l.eraseP (fun y => locEq y x)

/-- The `while unvisited:` loop of `nn_tour`, with `fuel` the size of
`unvisited` (the loop removes exactly one settlement per iteration, so the
fuel-out branch is unreachable under the invariant `fuel = |unvisited|`).
A `None` result from `fastest_trip_from` would make `total_time += time`
raise `TypeError` in the source; an absent element makes `unvisited.remove`
raise `KeyError`.  When `unvisited` is exhausted, the closing leg
`travel_time(current, starting_depot)` is added and the tour ends at the
starting depot. -/
noncomputable def nnTourLoop (c : Country) (start : Location) :
    ℕ → Location → List Location → Except PyErr (List Location × ℝ)
  | fuel, current, unvisited =>
    if unvisited.isEmpty then
      match c.travelTime current start with
      | .error e => .error e
      | .ok t => .ok ([start], t)
    else
      match fuel with
      | 0 => .error (.valueError "unreachable: loop fuel exhausted")
      | fuel' + 1 =>
        match fastestTripFromList c current unvisited with
        | .error e => .error e
        | .ok Option.none =>
          .error (.typeError "unsupported operand types for +=: float and NoneType")
        | .ok (some (next, t)) =>
          if eqMem next unvisited = false then .error (.keyError "KeyError")
          else
            match nnTourLoop c start fuel' next (erasePLoc unvisited next) with
            | .error e => .error e
            | .ok (rest, total) => .ok (next :: rest, t + total)

/-- `Country.nn_tour`: `ValueError` when `starting_depot` is not (under
`Location.__eq__`) among the depots; the degenerate
`([starting_depot, starting_depot], 0.0)` when there are no settlements;
otherwise the nearest-neighbour loop over the settlement set. -/
noncomputable def Country.nnTour (c : Country) (starting_depot : Location) :
    Except PyErr (List Location × ℝ) :=
  if eqMem starting_depot c.depots = false then
    .error (.valueError "Starting location must be a depot in the country")
  else if c.settlements.isEmpty then
    .ok ([starting_depot, starting_depot], 0)
  else
    match nnTourLoop c starting_depot c.settlements.length starting_depot
        c.settlements with
    | .error e => .error e
    | .ok (rest, total) => .ok (starting_depot :: rest, total)

/-- The depot sort key of `best_depot_site`:
`sorted(self.depots, key=lambda x: (x.name, x.region))`, i.e. the
lexicographic (name, region) order. -/
def locLe (a b : Location) : Prop :=
  a.name < b.name ∨ (a.name = b.name ∧ (a.region < b.region ∨ a.region = b.region))

instance : ∀ a b : Location, Decidable (locLe a b) := by
  intro a b
  unfold locLe
  infer_instance

/-- One comparison step of `best_depot_site`: the accumulator `none` models
`best_time = inf, best_depot = None` (any finite tour time beats infinity);
a later depot replaces the incumbent only on a strictly smaller tour time
(`if time < best_time`). -/
noncomputable def bestStep (best : Option (Location × ℝ)) (p : Location × ℝ) :
    Option (Location × ℝ) :=
  match best with
  | Option.none => some p
  | some b => if p.2 < b.2 then some p else some b

/-- The depot-scanning loop of `best_depot_site`: compute the tour for each
depot in order and keep the first strict improvement. -/
noncomputable def bestLoop (c : Country) :
    List Location → Option (Location × ℝ) → Except PyErr (Option (Location × ℝ))
  | [], best => .ok best
  | d :: ds, best =>
    match c.nnTour d with
    | .error e => .error e
    | .ok (_, time) => bestLoop c ds (bestStep best (d, time))

/-- `Country.best_depot_site`: `ValueError` when there are no depots;
otherwise scan the depots in sorted (name, region) order keeping the first
strict improvement.  The `display` branch only prints and is not modelled. -/
noncomputable def Country.bestDepotSite (c : Country) :
    Except PyErr (Option Location) :=
  if c.depots.isEmpty then .error (.valueError "No depots in the country")
  else
    match bestLoop c (List.insertionSort locLe c.depots) Option.none with
    | .error e => .error e
    | .ok best => .ok (best.map Prod.fst)

/-- The per-candidate outcome inside `fastest_trip_from`'s collection loop:
`some (loc, time)` when `self.travel_time(current_location, loc)` succeeds,
`none` when it raises (and is skipped). -/
noncomputable def sel (c : Country) (current l : Location) :
    Option (Location × ℝ) :=
  match c.travelTime current l with
  | .ok t => some (l, t)
  | .error _ => Option.none

/-- The first element of a list attaining the minimum time (earlier elements
win ties): the depot that `best_depot_site`'s strict-improvement scan keeps. -/
noncomputable def firstMin : List (Location × ℝ) → Option (Location × ℝ)
  | [] => Option.none
  | p :: l =>
    match firstMin l with
    | Option.none => some p
    | some q => if q.2 < p.2 then some q else some p

/-- Equality of the `(time, name, region)` sort keys of two candidate
entries. -/
def keyEq (p q : Location × ℝ) : Prop :=
  p.2 = q.2 ∧ p.1.name = q.1.name ∧ p.1.region = q.1.region

instance : IsTotal Location locLe := by
  constructor
  intro a b
  unfold locLe
  rcases lt_trichotomy a.name b.name with h | h | h
  · exact Or.inl (Or.inl h)
  · rcases lt_trichotomy a.region b.region with h2 | h2 | h2
    · exact Or.inl (Or.inr ⟨h, Or.inl h2⟩)
    · exact Or.inl (Or.inr ⟨h, Or.inr h2⟩)
    · exact Or.inr (Or.inr ⟨h.symm, Or.inl h2⟩)
  · exact Or.inr (Or.inl h)

instance : IsTrans Location locLe := by
  constructor
  intro a b c hab hbc
  unfold locLe at *
  rcases hab with h1 | ⟨h1, h1'⟩
  · rcases hbc with h2 | ⟨h2, _⟩
    · exact Or.inl (h1.trans h2)
    · exact Or.inl (h2 ▸ h1)
  · rcases hbc with h2 | ⟨h2, h2'⟩
    · exact Or.inl (h1 ▸ h2)
    · refine Or.inr ⟨h1.trans h2, ?_⟩
      rcases h1' with h3 | h3
      · rcases h2' with h4 | h4
        · exact Or.inl (h3.trans h4)
        · exact Or.inl (h4 ▸ h3)
      · rcases h2' with h4 | h4
        · exact Or.inl (h3 ▸ h4)
        · exact Or.inr (h3.trans h4)

/-- True iff the value is a Python `bool`. -/
def PyVal.isBoolV : PyVal → Bool
  | .bool _ => true
  | _ => false

/-- True iff the value is a Python `str`. -/
def PyVal.isStrV : PyVal → Bool
  | .str _ => true
  | _ => false

/-- True iff the computation raised a `TypeError`. -/
def raisesTypeError {α : Type} (r : Except PyErr α) : Bool :=
  match r with
  | .error e => e.isTypeErr
  | .ok _ => false

/-- True iff the computation raised a `ValueError`. -/
def raisesValueError {α : Type} (r : Except PyErr α) : Bool :=
  match r with
  | .error e => e.isValueErr
  | .ok _ => false

/-- Witness data: a depot "A" in region "R". -/
noncomputable def wDepot : Location := ⟨"A", "R", 0, 0, true⟩

/-- Witness data: a Location with the same identity as `wDepot` but other
coordinates and flag. -/
noncomputable def wDepotTwin : Location := ⟨"A", "R", 1, 1, false⟩

/-- Witness data: a settlement "B" in region "R". -/
noncomputable def wSettle : Location := ⟨"B", "R", 0, 0, false⟩

/-- Witness data: a settlement "C" in region "S". -/
noncomputable def wSettle2 : Location := ⟨"C", "S", 0, 0, false⟩

/-- Witness data: a Country of one depot and two settlements. -/
noncomputable def wCountry : Country := ⟨[wDepot, wSettle, wSettle2], by decide⟩

/-- Witness data: a Country of one depot and no settlements. -/
noncomputable def wCountryNoSettle : Country := ⟨[wDepot], by decide⟩

theorem locEq_iff (a b : Location) :
    locEq a b = true ↔ (a.name = b.name ∧ a.region = b.region) := by
  simp [locEq]

theorem locEq_refl (a : Location) : locEq a a = true := by
  simp [locEq]

theorem locEq_false_symm :
    Symmetric (fun a b : Location => locEq a b = false) := by
  intro a b h
  cases hba : locEq b a with
  | false => rfl
  | true =>
    obtain ⟨h1, h2⟩ := (locEq_iff b a).mp hba
    have : locEq a b = true := (locEq_iff a b).mpr ⟨h1.symm, h2.symm⟩
    rw [this] at h
    simp at h

theorem locEq_trans {a b c : Location} (h1 : locEq a b = true)
    (h2 : locEq b c = true) : locEq a c = true := by
  obtain ⟨h1n, h1r⟩ := (locEq_iff a b).mp h1
  obtain ⟨h2n, h2r⟩ := (locEq_iff b c).mp h2
  exact (locEq_iff a c).mpr ⟨h1n.trans h2n, h1r.trans h2r⟩

theorem eqMem_iff (x : Location) (l : List Location) :
    eqMem x l = true ↔ ∃ y ∈ l, locEq x y = true := by
  simp [eqMem]

theorem eqMem_of_mem {x : Location} {l : List Location} (h : x ∈ l) :
    eqMem x l = true :=
  (eqMem_iff x l).mpr ⟨x, h, locEq_refl x⟩

theorem travel_time_ok (distance dr : ℝ) (pop : ℤ) (speed : ℝ)
    (hd : 0 ≤ distance) (hdr : dr = 0 ∨ dr = 1) :
    travel_time distance dr pop speed =
      .ok ((1 / 3600) * (distance / speed) *
        (1 + (dr * ((max 1 pop : ℤ) : ℝ)) / 10)) := by
  unfold travel_time
  rw [if_neg (not_lt.mpr hd), if_neg (not_not_intro hdr)]

theorem Country.travelTime_eq (c : Country) (s e : Location)
    (hs : eqMem s c.all_locations = true) (he : eqMem e c.all_locations = true) :
    c.travelTime s e =
      travel_time (s.distanceTo e)
        (if s.region ≠ e.region then 1 else 0)
        ((c.all_locations.filter (fun l => l.region == e.region)).length : ℤ)
        4.75 := by
  unfold Country.travelTime
  rw [if_neg (by simp [hs]), if_neg (by simp [he])]

theorem Country.travelTime_isOk (c : Country) (s e : Location)
    (hs : eqMem s c.all_locations = true) (he : eqMem e c.all_locations = true) :
    ∃ t, c.travelTime s e = .ok t := by
  rw [Country.travelTime_eq c s e hs he]
  refine ⟨_, travel_time_ok _ _ _ _ (Real.sqrt_nonneg _) ?_⟩
  split_ifs
  · exact Or.inr rfl
  · exact Or.inl rfl

theorem Country.travelTime_err (c : Country) (s e : Location) {err : PyErr}
    (h : c.travelTime s e = .error err) : err.isValueErr = true := by
  unfold Country.travelTime travel_time at h
  split_ifs at h <;> (injection h with h2; cases h2; rfl)

theorem distanceTo_symm (a b : Location) : a.distanceTo b = b.distanceTo a := by
  have hcos : Real.cos (a.theta - b.theta) = Real.cos (b.theta - a.theta) := by
    rw [show a.theta - b.theta = -(b.theta - a.theta) by ring, Real.cos_neg]
  unfold Location.distanceTo
  rw [hcos]
  congr 1
  ring

theorem distanceTo_self (a : Location) : a.distanceTo a = 0 := by
  unfold Location.distanceTo
  rw [sub_self, Real.cos_zero]
  rw [show a.r ^ 2 + a.r ^ 2 - 2 * a.r * a.r * (1 : ℝ) = 0 by ring]
  exact Real.sqrt_zero

/-- C4: for every distance ≥ 0, flag in {0, 1}, population value, and
positive speed, `travel_time` returns
`distance / speed / 3600 * (1 + flag * max(1, int(population)) / 10)`; when
the flag is 0 the result is `distance / speed / 3600` for any population,
and a population below 1 is clamped up to 1 rather than rejected. -/
theorem claim_c4 (distance dr : ℝ) (pop : ℤ) (speed : ℝ)
    (hd : 0 ≤ distance) (hdr : dr = 0 ∨ dr = 1) (hs : 0 < speed) :
    travel_time distance dr pop speed =
      .ok (distance / speed / 3600 * (1 + dr * ((max 1 pop : ℤ) : ℝ) / 10)) ∧
    (dr = 0 → travel_time distance dr pop speed =
      .ok (distance / speed / 3600)) ∧
    (pop < 1 → travel_time distance dr pop speed =
      .ok (distance / speed / 3600 * (1 + dr / 10))) := by
  have h1 := travel_time_ok distance dr pop speed hd hdr
  refine ⟨?_, ?_, ?_⟩
  · rw [h1]
    exact congrArg Except.ok (by ring)
  · intro h0
    subst h0
    rw [h1]
    exact congrArg Except.ok (by ring)
  · intro hpop
    have hm : max 1 pop = 1 := max_eq_left hpop.le
    rw [h1, hm]
    push_cast
    exact congrArg Except.ok (by ring)

/-- C4 witness: the spec's example instance, flag 0. -/
theorem claim_c4_witness :
    travel_time (3600 * 4.75) 0 3 4.75 = .ok ((3600 * 4.75) / 4.75 / 3600) :=
  (claim_c4 (3600 * 4.75) 0 3 4.75 (by norm_num) (Or.inl rfl) (by norm_num)).2.1 rfl

/-- C5: constructing a Country from a list containing two Locations equal
under Location equality fails with a `ValueError`; constructing from an
all-distinct list succeeds and stores exactly the input list (count and
order preserved). -/
theorem claim_c5 (locs : List Location) :
    (¬ locs.Pairwise (fun a b => locEq a b = false) →
      Country.init locs =
        .error (.valueError "Duplicate locations found in the input list")) ∧
    (locs.Pairwise (fun a b => locEq a b = false) →
      ∃ c, Country.init locs = .ok c ∧ c.all_locations = locs) := by
  constructor
  · intro h
    unfold Country.init
    rw [dif_neg h]
  · intro h
    exact ⟨⟨locs, h⟩, by unfold Country.init; rw [dif_pos h], rfl⟩

/-- C5 witness: a duplicate pair (same name and region, different
coordinates) is rejected; a distinct pair is stored as given. -/
theorem claim_c5_witness :
    Country.init [wDepot, wDepotTwin] =
      .error (.valueError "Duplicate locations found in the input list") ∧
    ∃ c, Country.init [wDepot, wSettle] = .ok c ∧
      c.all_locations = [wDepot, wSettle] :=
  ⟨(claim_c5 [wDepot, wDepotTwin]).1 (by decide),
   (claim_c5 [wDepot, wSettle]).2 (by decide)⟩

/-- C6: Location equality holds iff name and region both match exactly
(r, theta and the depot flag play no part), and hashing is consistent with
this equality. -/
theorem claim_c6 (a b : Location) :
    (locEq a b = true ↔ (a.name = b.name ∧ a.region = b.region)) ∧
    (locEq a b = true → locHash a = locHash b) := by
  refine ⟨locEq_iff a b, fun h => ?_⟩
  obtain ⟨h1, h2⟩ := (locEq_iff a b).mp h
  unfold locHash
  rw [h1, h2]

/-- C6 witness: identical name+region but different r, theta, depot compare
equal and hash identically; a differing name compares unequal. -/
theorem claim_c6_witness :
    locEq wDepot wDepotTwin = true ∧ locHash wDepot = locHash wDepotTwin ∧
    locEq wDepot wSettle = false := by
  have h : locEq wDepot wDepotTwin = true :=
    (claim_c6 wDepot wDepotTwin).1.mpr ⟨rfl, rfl⟩
  refine ⟨h, (claim_c6 wDepot wDepotTwin).2 h, ?_⟩
  cases hb : locEq wDepot wSettle with
  | false => rfl
  | true =>
    obtain ⟨h1, _⟩ := (claim_c6 wDepot wSettle).1.mp hb
    exact absurd h1 (by decide)

/-- C7: `distance_to` is symmetric and zero on itself; consequently
`Country.travel_time(start, start)` for a member `start` is exactly 0,
whatever the destination region's population count. -/
theorem claim_c7 (a b : Location) :
    a.distanceTo b = b.distanceTo a ∧
    a.distanceTo a = 0 ∧
    (∀ c : Country, eqMem a c.all_locations = true →
      c.travelTime a a = .ok 0) := by
  refine ⟨distanceTo_symm a b, distanceTo_self a, fun c hmem => ?_⟩
  rw [Country.travelTime_eq c a a hmem hmem]
  rw [if_neg (by simp), distanceTo_self a]
  rw [travel_time_ok 0 0 _ _ le_rfl (Or.inl rfl)]
  exact congrArg Except.ok (by ring)

/-- C7 witness: the zero travel time on a concrete member of a concrete
Country. -/
theorem claim_c7_witness : wCountry.travelTime wDepot wDepot = .ok 0 :=
  (claim_c7 wDepot wDepot).2.2 wCountry rfl

/-- C8 counterexample: `distance_to` on a non-Location argument does NOT
raise a type-class error — the source raises
`ValueError("Distance_to requires another Location object.")`, a
value-class error. -/
theorem claim_c8_cex :
    raisesTypeError (Location.distance_toPy wDepot PyVal.none) = false ∧
    raisesValueError (Location.distance_toPy wDepot PyVal.none) = true ∧
    Location.distance_toPy wDepot PyVal.none =
      .error (.valueError "Distance_to requires another Location object.") :=
  ⟨rfl, rfl, rfl⟩

/-- C8 amended: for every Location `a` and every argument `x` that is not a
Location, `a.distance_to(x)` fails with a value-class error
(`ValueError("Distance_to requires another Location object.")`). -/
theorem claim_c8 (a : Location) (x : PyVal) (h : x.isLocV = false) :
    a.distance_toPy x =
      .error (.valueError "Distance_to requires another Location object.") := by
  cases x <;> first | rfl | simp [PyVal.isLocV] at h

/-- C8 witness: a string argument. -/
theorem claim_c8_witness :
    wDepot.distance_toPy (PyVal.str "x") =
      .error (.valueError "Distance_to requires another Location object.") :=
  claim_c8 wDepot (PyVal.str "x") rfl

/-- C9 counterexample: constructing a Location with `r = None` (a value not
convertible to float) raises a type-class error, not the value-class error
the claim requires for non-convertible r/theta: `float(None)` raises
`TypeError`, and the source's `except ValueError` does not catch it.  This
also refutes the claim's "type-class failure exactly for a non-boolean
depot flag or a non-text name/region": here the depot flag is boolean and
name/region are text, yet a type-class error is raised. -/
theorem claim_c9_cex :
    raisesTypeError (Location.init (PyVal.str "A") (PyVal.str "R")
      PyVal.none (PyVal.int 0) (PyVal.bool true)) = true ∧
    raisesValueError (Location.init (PyVal.str "A") (PyVal.str "R")
      PyVal.none (PyVal.int 0) (PyVal.bool true)) = false :=
  ⟨rfl, rfl⟩

/-- C9 amended: Location construction raises a type-class failure for a
non-boolean depot flag, for an r/theta whose float-conversion itself raises
a type-class error (such as `None`), or — once both coordinates convert and
are in range — for a non-text name/region; it raises a value-class failure
for an r/theta whose float-conversion raises a value-class error (a
non-numeric string), for a negative radius, or for an out-of-range angle,
in that order of checks. -/
theorem claim_c9 (name region r theta : PyVal) (d : Bool) :
    (∀ dep : PyVal, dep.isBoolV = false →
      Location.init name region r theta dep =
        .error (.typeError "Depot must be a boolean value.")) ∧
    (∀ m, pyFloat r = .error (.typeError m) →
      Location.init name region r theta (.bool d) = .error (.typeError m)) ∧
    (∀ m, pyFloat r = .error (.valueError m) →
      Location.init name region r theta (.bool d) =
        .error (.valueError "R must be convertible to float.")) ∧
    (∀ rv : ℝ, pyFloat r = .ok rv → rv < 0 →
      Location.init name region r theta (.bool d) =
        .error (.valueError "R must be non-negative.")) ∧
    (∀ (rv : ℝ) m, pyFloat r = .ok rv → 0 ≤ rv →
      pyFloat theta = .error (.typeError m) →
      Location.init name region r theta (.bool d) = .error (.typeError m)) ∧
    (∀ (rv : ℝ) m, pyFloat r = .ok rv → 0 ≤ rv →
      pyFloat theta = .error (.valueError m) →
      Location.init name region r theta (.bool d) =
        .error (.valueError "Theta must be convertible to float")) ∧
    (∀ rv tv : ℝ, pyFloat r = .ok rv → 0 ≤ rv → pyFloat theta = .ok tv →
      (tv < -Real.pi ∨ tv > Real.pi) →
      Location.init name region r theta (.bool d) =
        .error (.valueError "Theta must be between -pi and pi")) ∧
    (∀ rv tv : ℝ, pyFloat r = .ok rv → 0 ≤ rv → pyFloat theta = .ok tv →
      -Real.pi ≤ tv → tv ≤ Real.pi →
      (name.isStrV = false ∨ region.isStrV = false) →
      Location.init name region r theta (.bool d) =
        .error (.typeError "Name and region must be strings")) := by
  refine ⟨?_, ?_, ?_, ?_, ?_, ?_, ?_, ?_⟩
  · intro dep hdep
    cases dep <;> first | rfl | simp [PyVal.isBoolV] at hdep
  · intro m hr
    unfold Location.init
    rw [hr]
  · intro m hr
    unfold Location.init
    rw [hr]
  · intro rv hr hneg
    unfold Location.init
    rw [hr]
    simp only [if_pos hneg]
  · intro rv m hr hnn ht
    unfold Location.init
    rw [hr]
    simp only [if_neg (not_lt.mpr hnn)]
    rw [ht]
  · intro rv m hr hnn ht
    unfold Location.init
    rw [hr]
    simp only [if_neg (not_lt.mpr hnn)]
    rw [ht]
  · intro rv tv hr hnn ht hout
    unfold Location.init
    rw [hr]
    simp only [if_neg (not_lt.mpr hnn)]
    rw [ht]
    simp only [if_pos hout]
  · intro rv tv hr hnn ht hlo hhi hbad
    unfold Location.init
    rw [hr]
    simp only [if_neg (not_lt.mpr hnn)]
    rw [ht]
    have hcond : ¬(tv < -Real.pi ∨ tv > Real.pi) := by
      push_neg
      exact ⟨hlo, hhi⟩
    simp only [if_neg hcond]
    rcases hbad with hbad | hbad <;>
      cases name <;> cases region <;> first | rfl | simp [PyVal.isStrV] at hbad

/-- C9 witness: a non-boolean depot flag is a type-class error; a negative
radius is a value-class error. -/
theorem claim_c9_witness :
    Location.init (PyVal.str "A") (PyVal.str "R") (PyVal.int 0) (PyVal.int 0)
      (PyVal.int 0) = .error (.typeError "Depot must be a boolean value.") ∧
    Location.init (PyVal.str "A") (PyVal.str "R") (PyVal.int (-1))
      (PyVal.int 0) (PyVal.bool true) =
      .error (.valueError "R must be non-negative.") :=
  ⟨(claim_c9 (PyVal.str "A") (PyVal.str "R") (PyVal.int 0) (PyVal.int 0)
      true).1 (PyVal.int 0) rfl,
   (claim_c9 (PyVal.str "A") (PyVal.str "R") (PyVal.int (-1)) (PyVal.int 0)
      true).2.2.2.1 ((-1 : ℤ) : ℝ) rfl (by norm_num)⟩

theorem dedupLoc_sublist (l : List Location) : List.Sublist (dedupLoc l) l := by
  induction l using dedupLoc.induct with
  | case1 => simp [dedupLoc]
  | case2 x xs ih =>
    rw [dedupLoc]
    exact (ih.trans (List.filter_sublist xs)).cons₂ x

theorem dedupLoc_pairwise (l : List Location) :
    (dedupLoc l).Pairwise (fun a b => locEq a b = false) := by
  induction l using dedupLoc.induct with
  | case1 => simp [dedupLoc]
  | case2 x xs ih =>
    rw [dedupLoc]
    refine List.Pairwise.cons (fun y hy => ?_) ih
    have hy' := (dedupLoc_sublist _).subset hy
    have := (List.mem_filter.mp hy').2
    simpa using this

theorem tripLt_irrefl (p : Location × ℝ) : ¬tripLt p p := by
  unfold tripLt
  rintro (h | ⟨_, h | ⟨_, h⟩⟩) <;> exact lt_irrefl _ h

theorem tripLt_trans {p q r : Location × ℝ} (h1 : tripLt p q)
    (h2 : tripLt q r) : tripLt p r := by
  unfold tripLt at *
  rcases h1 with h1 | ⟨e1, h1⟩ <;> rcases h2 with h2 | ⟨e2, h2⟩
  · exact Or.inl (h1.trans h2)
  · exact Or.inl (e2 ▸ h1)
  · exact Or.inl (e1.trans_lt h2)
  · refine Or.inr ⟨e1.trans e2, ?_⟩
    rcases h1 with hn1 | ⟨en1, hr1⟩ <;> rcases h2 with hn2 | ⟨en2, hr2⟩
    · exact Or.inl (hn1.trans hn2)
    · exact Or.inl (en2 ▸ hn1)
    · exact Or.inl (en1.trans_lt hn2)
    · exact Or.inr ⟨en1.trans en2, hr1.trans hr2⟩

theorem tripLt_trichotomy (p q : Location × ℝ) :
    tripLt p q ∨ keyEq p q ∨ tripLt q p := by
  unfold tripLt keyEq
  rcases lt_trichotomy p.2 q.2 with h | h | h
  · exact Or.inl (Or.inl h)
  · rcases lt_trichotomy p.1.name q.1.name with h2 | h2 | h2
    · exact Or.inl (Or.inr ⟨h, Or.inl h2⟩)
    · rcases lt_trichotomy p.1.region q.1.region with h3 | h3 | h3
      · exact Or.inl (Or.inr ⟨h, Or.inr ⟨h2, h3⟩⟩)
      · exact Or.inr (Or.inl ⟨h, h2, h3⟩)
      · exact Or.inr (Or.inr (Or.inr ⟨h.symm, Or.inr ⟨h2.symm, h3⟩⟩))
    · exact Or.inr (Or.inr (Or.inr ⟨h.symm, Or.inl h2⟩))
  · exact Or.inr (Or.inr (Or.inl h))

theorem keyEq_symm {p q : Location × ℝ} (h : keyEq p q) : keyEq q p :=
  ⟨h.1.symm, h.2.1.symm, h.2.2.symm⟩

theorem tripLt_congr_left {p p' q : Location × ℝ} (h : keyEq p p') :
    tripLt p q ↔ tripLt p' q := by
  unfold tripLt
  rw [h.1, h.2.1, h.2.2]

theorem foldl_pick_mem (xs : List (Location × ℝ)) (x : Location × ℝ) :
    xs.foldl (fun best y => if tripLt y best then y else best) x ∈ x :: xs := by
  induction xs generalizing x with
  | nil => simp
  | cons y ys ih =>
    rw [List.foldl_cons]
    rcases List.mem_cons.mp (ih (if tripLt y x then y else x)) with h | h
    · rw [h]
      split_ifs <;> simp
    · exact List.mem_cons_of_mem _ (List.mem_cons_of_mem _ h)

theorem foldl_pick_min (xs : List (Location × ℝ)) (x : Location × ℝ) :
    ∀ q ∈ x :: xs,
      ¬tripLt q (xs.foldl (fun best y => if tripLt y best then y else best) x) := by
  induction xs generalizing x with
  | nil =>
    intro q hq
    rw [List.mem_singleton] at hq
    subst hq
    exact tripLt_irrefl q
  | cons y ys ih =>
    intro q hq
    rw [List.foldl_cons]
    rcases List.mem_cons.mp hq with h | h
    · subst h
      by_cases hyx : tripLt y q
      · rw [if_pos hyx]
        intro hqr
        exact ih y y (List.mem_cons_self y ys) (tripLt_trans hyx hqr)
      · rw [if_neg hyx]
        exact ih q q (List.mem_cons_self q ys)
    · rcases List.mem_cons.mp h with h | h
      · subst h
        by_cases hyx : tripLt q x
        · rw [if_pos hyx]
          exact ih q q (List.mem_cons_self q ys)
        · rw [if_neg hyx]
          intro hqr
          have hxr := ih x x (List.mem_cons_self x ys)
          rcases tripLt_trichotomy q x with h3 | h3 | h3
          · exact hyx h3
          · exact hxr ((tripLt_congr_left h3).mp hqr)
          · exact hxr (tripLt_trans h3 hqr)
      · split_ifs <;> exact ih _ q (List.mem_cons_of_mem _ h)

theorem pickMin_spec {l : List (Location × ℝ)} {p : Location × ℝ}
    (h : pickMin l = some p) : p ∈ l ∧ ∀ q ∈ l, ¬tripLt q p := by
  cases l with
  | nil => simp [pickMin] at h
  | cons x xs =>
    rw [pickMin] at h
    injection h with h
    subst h
    exact ⟨foldl_pick_mem xs x, fun q hq => foldl_pick_min xs x q hq⟩

theorem pickMin_isSome {l : List (Location × ℝ)} (h : l ≠ []) :
    ∃ p, pickMin l = some p := by
  cases l with
  | nil => exact absurd rfl h
  | cons x xs => exact ⟨_, rfl⟩

theorem sel_fst {c : Country} {current l : Location} {p : Location × ℝ}
    (h : sel c current l = some p) : p.1 = l := by
  unfold sel at h
  cases ht : c.travelTime current l with
  | ok t =>
    rw [ht] at h
    injection h with h
    rw [← h]
  | error e =>
    rw [ht] at h
    exact Option.noConfusion h

theorem sel_time {c : Country} {current l : Location} {p : Location × ℝ}
    (h : sel c current l = some p) : c.travelTime current l = .ok p.2 := by
  unfold sel at h
  cases ht : c.travelTime current l with
  | ok t =>
    rw [ht] at h
    injection h with h
    rw [← h]
  | error e =>
    rw [ht] at h
    exact Option.noConfusion h

theorem tripTimes_eq (c : Country) (current : Location) (ls : List Location) :
    tripTimes c current ls = .ok (ls.filterMap (sel c current)) := by
  induction ls with
  | nil => rfl
  | cons l ls ih =>
    cases h : c.travelTime current l with
    | ok t => simp [tripTimes, h, ih, List.filterMap_cons, sel, Except.map]
    | error e =>
      have hv := Country.travelTime_err c current l h
      cases e <;>
        simp_all [tripTimes, sel, PyErr.isValueErr, List.filterMap_cons, Except.map]

theorem times_pairwise {c : Country} {current : Location} {R : List Location}
    (h : R.Pairwise (fun a b => locEq a b = false)) :
    (R.filterMap (sel c current)).Pairwise (fun p q => ¬keyEq p q) := by
  induction R with
  | nil => simp
  | cons a R ih =>
    rw [List.filterMap_cons]
    rw [List.pairwise_cons] at h
    cases hsel : sel c current a with
    | none => exact ih h.2
    | some p =>
      refine List.Pairwise.cons (fun q hq hkey => ?_) (ih h.2)
      obtain ⟨b, hb, hsb⟩ := List.mem_filterMap.mp hq
      have hpa : p.1 = a := sel_fst hsel
      have hqb : q.1 = b := sel_fst hsb
      have : locEq a b = true := by
        refine (locEq_iff a b).mpr ⟨?_, ?_⟩
        · rw [← hpa, ← hqb]
          exact hkey.2.1
        · rw [← hpa, ← hqb]
          exact hkey.2.2
      rw [h.1 b hb] at this
      exact Bool.noConfusion this

theorem resolveCandidates_inl (c : Country) (l : List Location) :
    resolveCandidates c (l.map Sum.inl) = .ok l := by
  induction l with
  | nil => rfl
  | cons x xs ih => simp [resolveCandidates, ih, Except.map]

theorem fastestTripFrom_eq_list (c : Country) (current : Location)
    (cands : List Location) :
    c.fastestTripFrom current (some (cands.map Sum.inl)) =
      fastestTripFromList c current cands := by
  unfold Country.fastestTripFrom
  rw [resolveCandidates_inl]

theorem fastestTripFromList_eq (c : Country) (current : Location)
    (cands : List Location) :
    fastestTripFromList c current cands =
      .ok (pickMin (((dedupLoc cands).filter
        (fun l => !(locEq l current))).filterMap (sel c current))) := by
  cases hR : (dedupLoc cands).filter (fun l => !(locEq l current)) with
  | nil =>
    simp only [fastestTripFromList, hR]
    simp [pickMin]
  | cons x rest =>
    simp only [fastestTripFromList, hR]
    rw [tripTimes_eq]
    simp [Except.map]

/-- C3: `fastest_trip_from` deduplicates candidates by Location equality,
removes the current location, returns `(None, None)` when nothing remains or
when no remaining candidate yields a valid travel time, and otherwise
returns the candidate minimizing the lexicographic key
`(travel time, name, region)` — the returned pair is in the valid-candidate
list, its time is the actual travel time from `current`, and it is strictly
below every other valid candidate in the key order (so ties on time are
broken by ascending name, then ascending region). -/
theorem claim_c3 (c : Country) (current : Location) (cands : List Location) :
    ((((dedupLoc cands).filter (fun l => !(locEq l current))).filterMap
        (sel c current)) = [] →
      c.fastestTripFrom current (some (cands.map Sum.inl)) = .ok Option.none) ∧
    (∀ p, c.fastestTripFrom current (some (cands.map Sum.inl)) = .ok (some p) →
      p ∈ ((dedupLoc cands).filter (fun l => !(locEq l current))).filterMap
          (sel c current) ∧
      c.travelTime current p.1 = .ok p.2 ∧
      ∀ q ∈ ((dedupLoc cands).filter (fun l => !(locEq l current))).filterMap
          (sel c current), q ≠ p → tripLt p q) ∧
    ((((dedupLoc cands).filter (fun l => !(locEq l current))).filterMap
        (sel c current)) ≠ [] →
      ∃ p, c.fastestTripFrom current (some (cands.map Sum.inl)) =
        .ok (some p)) := by
  have hmain : c.fastestTripFrom current (some (cands.map Sum.inl)) =
      .ok (pickMin (((dedupLoc cands).filter
        (fun l => !(locEq l current))).filterMap (sel c current))) := by
    rw [fastestTripFrom_eq_list, fastestTripFromList_eq]
  refine ⟨?_, ?_, ?_⟩
  · intro hT
    rw [hmain, hT]
    rfl
  · intro p hp
    rw [hmain] at hp
    injection hp with hp
    obtain ⟨hpmem, hmin⟩ := pickMin_spec hp
    obtain ⟨b, hb, hsb⟩ := List.mem_filterMap.mp hpmem
    have hfst : p.1 = b := sel_fst hsb
    refine ⟨hpmem, by rw [hfst]; exact sel_time hsb, fun q hq hne => ?_⟩
    have hRpw : ((dedupLoc cands).filter
        (fun l => !(locEq l current))).Pairwise
        (fun a b => locEq a b = false) :=
      List.Pairwise.sublist (List.filter_sublist (dedupLoc cands))
        (dedupLoc_pairwise cands)
    have hpw := @times_pairwise c current _ hRpw
    have hsymm : Symmetric (fun p q : Location × ℝ => ¬keyEq p q) :=
      fun p q h hk => h (keyEq_symm hk)
    have hnk : ¬keyEq q p := hpw.forall hsymm hq hpmem hne
    rcases tripLt_trichotomy p q with h | h | h
    · exact h
    · exact absurd (keyEq_symm h) hnk
    · exact absurd h (hmin q hq)
  · intro hT
    obtain ⟨p, hp⟩ := pickMin_isSome hT
    exact ⟨p, by rw [hmain, hp]⟩

/-- C3 witness: with no candidates nothing remains, and the result is
`(None, None)`. -/
theorem claim_c3_witness :
    wCountry.fastestTripFrom wDepot (some (([] : List Location).map Sum.inl)) =
      .ok Option.none :=
  (claim_c3 wCountry wDepot []).1 (by simp [dedupLoc])

theorem ftf_some (c : Country) (current : Location) (cands : List Location)
    (hne : cands ≠ [])
    (hmem : ∀ l ∈ cands, eqMem l c.all_locations = true)
    (hcur : eqMem current c.all_locations = true)
    (hnc : ∀ l ∈ cands, locEq l current = false) :
    ∃ next t, fastestTripFromList c current cands = .ok (some (next, t)) ∧
      next ∈ cands := by
  rw [fastestTripFromList_eq]
  cases cands with
  | nil => exact absurd rfl hne
  | cons x rest =>
    have hx : locEq x current = false := hnc x (List.mem_cons_self x rest)
    have hded : dedupLoc (x :: rest) =
        x :: dedupLoc (rest.filter (fun y => !(locEq x y))) := by
      rw [dedupLoc]
    have hRe : (dedupLoc (x :: rest)).filter (fun l => !(locEq l current)) =
        x :: (dedupLoc (rest.filter (fun y => !(locEq x y)))).filter
          (fun l => !(locEq l current)) := by
      rw [hded]
      simp [List.filter_cons, hx]
    rw [hRe]
    obtain ⟨t0, ht0⟩ := Country.travelTime_isOk c current x hcur
      (hmem x (List.mem_cons_self x rest))
    have hselx : sel c current x = some (x, t0) := by
      unfold sel
      rw [ht0]
    rw [List.filterMap_cons, hselx]
    obtain ⟨p, hp⟩ := pickMin_isSome
      (l := (x, t0) :: ((dedupLoc (rest.filter (fun y => !(locEq x y)))).filter
        (fun l => !(locEq l current))).filterMap (sel c current)) (by simp)
    rw [hp]
    obtain ⟨hpmem, _⟩ := pickMin_spec hp
    refine ⟨p.1, p.2, rfl, ?_⟩
    rcases List.mem_cons.mp hpmem with h | h
    · rw [h]
      exact List.mem_cons_self x rest
    · obtain ⟨b, hb, hsb⟩ := List.mem_filterMap.mp h
      have hfst : p.1 = b := sel_fst hsb
      have hb1 : b ∈ dedupLoc (rest.filter (fun y => !(locEq x y))) :=
        (List.mem_filter.mp hb).1
      have hb2 : b ∈ rest.filter (fun y => !(locEq x y)) :=
        (dedupLoc_sublist _).subset hb1
      have hb3 : b ∈ rest := (List.mem_filter.mp hb2).1
      rw [hfst]
      exact List.mem_cons_of_mem x hb3

theorem erasePLoc_spec (l : List Location) (next : Location)
    (hpw : l.Pairwise (fun a b => locEq a b = false)) (hin : next ∈ l) :
    l.Perm (next :: erasePLoc l next) ∧
    (∀ x ∈ erasePLoc l next, locEq x next = false) := by
  induction l with
  | nil => cases hin
  | cons u us ih =>
    rw [List.pairwise_cons] at hpw
    by_cases hu : locEq u next = true
    · have he : erasePLoc (u :: us) next = us := by
        unfold erasePLoc
        simp [List.eraseP_cons, hu]
      have hnu : next = u := by
        rcases List.mem_cons.mp hin with h | h
        · exact h
        · have := hpw.1 next h
          rw [hu] at this
          exact Bool.noConfusion this
      constructor
      · rw [he, hnu]
      · intro x hx
        rw [he] at hx
        rw [hnu]
        exact locEq_false_symm (hpw.1 x hx)
    · have hu' : locEq u next = false := Bool.eq_false_iff.mpr hu
      have hin' : next ∈ us := by
        rcases List.mem_cons.mp hin with h | h
        · exfalso
          apply hu
          rw [h]
          exact locEq_refl u
        · exact h
      have he : erasePLoc (u :: us) next = u :: erasePLoc us next := by
        unfold erasePLoc
        simp [List.eraseP_cons, hu']
      obtain ⟨hperm, hall⟩ := ih hpw.2 hin'
      constructor
      · rw [he]
        exact (hperm.cons u).trans (List.Perm.swap next u _)
      · intro x hx
        rw [he] at hx
        rcases List.mem_cons.mp hx with h | h
        · rw [h]
          exact hu'
        · exact hall x h

theorem nnTourLoop_ok (c : Country) (start : Location)
    (hstart : eqMem start c.all_locations = true) :
    ∀ (fuel : ℕ) (current : Location) (unvisited : List Location),
      unvisited.length = fuel →
      eqMem current c.all_locations = true →
      (∀ l ∈ unvisited, eqMem l c.all_locations = true) →
      unvisited.Pairwise (fun a b => locEq a b = false) →
      (∀ l ∈ unvisited, locEq l current = false) →
      ∃ mid t, nnTourLoop c start fuel current unvisited =
        .ok (mid ++ [start], t) ∧ mid.Perm unvisited := by
  intro fuel
  induction fuel with
  | zero =>
    intro current unvisited hlen hcur hmem hpw hnc
    have hu : unvisited = [] := List.length_eq_zero.mp hlen
    subst hu
    obtain ⟨t, ht⟩ := Country.travelTime_isOk c current start hcur hstart
    refine ⟨[], t, ?_, List.Perm.refl _⟩
    rw [nnTourLoop]
    simp [ht]
  | succ fuel' ih =>
    intro current unvisited hlen hcur hmem hpw hnc
    have hne : unvisited ≠ [] := by
      intro h
      rw [h] at hlen
      exact Nat.noConfusion hlen
    obtain ⟨next, t, hftf, hnextmem⟩ := ftf_some c current unvisited hne hmem hcur hnc
    have hnext_unv : eqMem next unvisited = true := eqMem_of_mem hnextmem
    obtain ⟨hperm, herase⟩ := erasePLoc_spec unvisited next hpw hnextmem
    have hlen' : (erasePLoc unvisited next).length = fuel' := by
      have h2 := hperm.length_eq
      rw [hlen] at h2
      simp only [List.length_cons] at h2
      omega
    have hcur' : eqMem next c.all_locations = true := hmem next hnextmem
    have hmem' : ∀ l ∈ erasePLoc unvisited next, eqMem l c.all_locations = true :=
      fun l hl => hmem l ((List.eraseP_sublist _).subset hl)
    have hpw' : (erasePLoc unvisited next).Pairwise
        (fun a b => locEq a b = false) :=
      List.Pairwise.sublist (List.eraseP_sublist _) hpw
    obtain ⟨mid, t', hloop, hmidperm⟩ :=
      ih next (erasePLoc unvisited next) hlen' hcur' hmem' hpw' herase
    refine ⟨next :: mid, t + t', ?_, (hmidperm.cons next).trans hperm.symm⟩
    have hie : unvisited.isEmpty = false := by
      cases unvisited with
      | nil => exact absurd rfl hne
      | cons a b => rfl
    rw [nnTourLoop]
    simp [hie, hftf, hnext_unv, hloop]

theorem nnTour_spec (c : Country) (d : Location)
    (hd : eqMem d c.depots = true) :
    ∃ mid t, c.nnTour d = .ok (d :: (mid ++ [d]), t) ∧
      mid.Perm c.settlements := by
  obtain ⟨dep, hdep, hddep⟩ := (eqMem_iff d c.depots).mp hd
  have hdepall : dep ∈ c.all_locations := by
    unfold Country.depots at hdep
    exact (List.mem_filter.mp hdep).1
  have hdepflag : dep.depot = true := by
    unfold Country.depots at hdep
    simpa using (List.mem_filter.mp hdep).2
  have hdall : eqMem d c.all_locations = true :=
    (eqMem_iff _ _).mpr ⟨dep, hdepall, hddep⟩
  have hmem : ∀ l ∈ c.settlements, eqMem l c.all_locations = true := by
    intro l hl
    unfold Country.settlements at hl
    exact eqMem_of_mem (List.mem_filter.mp hl).1
  have hpw : c.settlements.Pairwise (fun a b => locEq a b = false) :=
    List.Pairwise.sublist (List.filter_sublist _) c.nodup
  have hnc : ∀ l ∈ c.settlements, locEq l d = false := by
    intro l hl
    cases hld : locEq l d with
    | false => rfl
    | true =>
      exfalso
      have hldep : locEq l dep = true := locEq_trans hld hddep
      have hlall : l ∈ c.all_locations := by
        unfold Country.settlements at hl
        exact (List.mem_filter.mp hl).1
      have hlflag : l.depot = false := by
        unfold Country.settlements at hl
        simpa using (List.mem_filter.mp hl).2
      have hlne : l ≠ dep := by
        intro h
        rw [h, hdepflag] at hlflag
        exact Bool.noConfusion hlflag
      have := (c.nodup.forall locEq_false_symm) hlall hdepall hlne
      rw [hldep] at this
      exact Bool.noConfusion this
  unfold Country.nnTour
  rw [if_neg (by simp [hd])]
  by_cases hse : c.settlements.isEmpty = true
  · have hs : c.settlements = [] := by
      cases hc : c.settlements with
      | nil => rfl
      | cons a b =>
        rw [hc] at hse
        exact Bool.noConfusion hse
    rw [if_pos hse]
    refine ⟨[], 0, rfl, ?_⟩
    rw [hs]
  · rw [if_neg hse]
    obtain ⟨mid, t, hloop, hperm⟩ := nnTourLoop_ok c d hdall
      c.settlements.length d c.settlements rfl hdall hmem hpw hnc
    rw [hloop]
    exact ⟨mid, t, rfl, hperm⟩

/-- C1: for every Country and every Location d that is a member of the
Country's depots by Location equality, `nn_tour(d)` returns a pair
(tour, totalTime) in which the tour starts and ends at d and contains every
settlement of the Country exactly once in between (the middle section is a
permutation of the settlements); with zero settlements the result is
exactly ([d, d], 0.0). -/
theorem claim_c1 (c : Country) (d : Location)
    (hd : eqMem d c.depots = true) :
    (c.settlements = [] → c.nnTour d = .ok ([d, d], 0)) ∧
    ∃ mid t, c.nnTour d = .ok (d :: (mid ++ [d]), t) ∧
      mid.Perm c.settlements := by
  refine ⟨?_, nnTour_spec c d hd⟩
  intro hs
  unfold Country.nnTour
  rw [if_neg (by simp [hd]), if_pos (by rw [hs]; rfl)]

/-- C1 witness: the degenerate tour on a one-depot Country. -/
theorem claim_c1_witness :
    wCountryNoSettle.nnTour wDepot = .ok ([wDepot, wDepot], 0) :=
  (claim_c1 wCountryNoSettle wDepot rfl).1 rfl

/-- C10: inside `nn_tour`, with a non-empty unvisited set whose members are
all members of the Country and none equal to the current location,
`fastest_trip_from(current, list(unvisited))` never returns (None, None) —
it returns a settlement of the unvisited set with its travel time — and
consequently `nn_tour` terminates and returns a value (no type error) for
every depot of the Country. -/
theorem claim_c10 (c : Country) (current : Location)
    (unvisited : List Location) (hne : unvisited ≠ [])
    (hmem : ∀ l ∈ unvisited, eqMem l c.all_locations = true)
    (hcur : eqMem current c.all_locations = true)
    (hnc : ∀ l ∈ unvisited, locEq l current = false) :
    (∃ next t, c.fastestTripFrom current (some (unvisited.map Sum.inl)) =
      .ok (some (next, t)) ∧ next ∈ unvisited) ∧
    ∀ d, eqMem d c.depots = true → ∃ r, c.nnTour d = .ok r := by
  constructor
  · obtain ⟨next, t, h1, h2⟩ := ftf_some c current unvisited hne hmem hcur hnc
    refine ⟨next, t, ?_, h2⟩
    rw [fastestTripFrom_eq_list]
    exact h1
  · intro d hd
    obtain ⟨mid, t, h, _⟩ := nnTour_spec c d hd
    exact ⟨_, h⟩

/-- C10 witness: a concrete call inside the tour of `wCountry`. -/
theorem claim_c10_witness :
    ∃ next t, wCountry.fastestTripFrom wDepot
      (some ([wSettle, wSettle2].map Sum.inl)) = .ok (some (next, t)) ∧
      next ∈ [wSettle, wSettle2] :=
  (claim_c10 wCountry wDepot [wSettle, wSettle2] (by simp)
    (by decide) rfl (by decide)).1

theorem firstMin_eq_none {l : List (Location × ℝ)}
    (h : firstMin l = Option.none) : l = [] := by
  cases l with
  | nil => rfl
  | cons x l =>
    rw [firstMin] at h
    cases hq : firstMin l with
    | none =>
      rw [hq] at h
      exact Option.noConfusion h
    | some q =>
      rw [hq] at h
      have h2 : (if q.2 < x.2 then some q else some x) =
          (Option.none : Option (Location × ℝ)) := h
      split_ifs at h2

theorem firstMin_isSome {l : List (Location × ℝ)} (h : l ≠ []) :
    ∃ p, firstMin l = some p := by
  cases l with
  | nil => exact absurd rfl h
  | cons x l =>
    rw [firstMin]
    cases hq : firstMin l with
    | none => exact ⟨x, rfl⟩
    | some q =>
      by_cases h2 : q.2 < x.2
      · exact ⟨q, if_pos h2⟩
      · exact ⟨x, if_neg h2⟩

theorem foldl_bestStep_some (l : List (Location × ℝ)) (b : Location × ℝ) :
    (firstMin l = Option.none → l.foldl bestStep (some b) = some b) ∧
    (∀ q, firstMin l = some q →
      l.foldl bestStep (some b) = some (if q.2 < b.2 then q else b)) := by
  induction l generalizing b with
  | nil =>
    refine ⟨fun _ => rfl, fun q hq => ?_⟩
    simp [firstMin] at hq
  | cons p l ih =>
    have hb : bestStep (some b) p = some (if p.2 < b.2 then p else b) := by
      show (if p.2 < b.2 then some p else some b) =
        some (if p.2 < b.2 then p else b)
      split_ifs <;> rfl
    constructor
    · intro h0
      exact absurd h0 (by
        obtain ⟨q, hq⟩ := firstMin_isSome (l := p :: l) (List.cons_ne_nil p l)
        rw [hq]
        exact Option.noConfusion)
    · intro q hq
      rw [List.foldl_cons, hb]
      rw [firstMin] at hq
      cases hql : firstMin l with
      | none =>
        rw [hql] at hq
        injection hq with hq
        rw [(ih (if p.2 < b.2 then p else b)).1 hql, hq]
      | some q' =>
        rw [hql] at hq
        have hq2 : (if q'.2 < p.2 then some q' else some p) = some q := hq
        rw [(ih (if p.2 < b.2 then p else b)).2 q' hql]
        by_cases h3 : q'.2 < p.2
        · rw [if_pos h3] at hq2
          injection hq2 with hq2
          subst hq2
          by_cases h4 : p.2 < b.2
          · rw [if_pos h4, if_pos h3, if_pos (h3.trans h4)]
          · rw [if_neg h4]
        · rw [if_neg h3] at hq2
          injection hq2 with hq2
          subst hq2
          by_cases h4 : p.2 < b.2
          · rw [if_pos h4, if_neg h3]
          · rw [if_neg h4,
              if_neg (show ¬q'.2 < b.2 by push_neg at h3 h4 ⊢; linarith)]

theorem foldl_bestStep_none (l : List (Location × ℝ)) :
    l.foldl bestStep Option.none = firstMin l := by
  cases l with
  | nil => rfl
  | cons p l =>
    rw [List.foldl_cons]
    show l.foldl bestStep (some p) = firstMin (p :: l)
    rw [firstMin]
    cases hq : firstMin l with
    | none => rw [(foldl_bestStep_some l p).1 hq]
    | some q =>
      rw [(foldl_bestStep_some l p).2 q hq]
      show some (if q.2 < p.2 then q else p) =
        if q.2 < p.2 then some q else some p
      split_ifs <;> rfl

theorem firstMin_spec (l : List (Location × ℝ)) (p : Location × ℝ)
    (hp : firstMin l = some p) :
    ∃ (i : ℕ) (hi : i < l.length), l.get ⟨i, hi⟩ = p ∧
      (∀ j (hj : j < l.length), p.2 ≤ (l.get ⟨j, hj⟩).2) ∧
      (∀ j (hj : j < l.length), j < i → p.2 < (l.get ⟨j, hj⟩).2) := by
  induction l generalizing p with
  | nil => simp [firstMin] at hp
  | cons x l ih =>
    rw [firstMin] at hp
    cases hq : firstMin l with
    | none =>
      rw [hq] at hp
      injection hp with hp
      have hl : l = [] := firstMin_eq_none hq
      subst hl
      refine ⟨0, by simp, by simpa using hp, ?_, ?_⟩
      · intro j hj
        have hj0 : j = 0 := by
          simp at hj
          omega
        subst hj0
        simp [← hp]
      · intro j hj hji
        omega
    | some q =>
      rw [hq] at hp
      have hp2 : (if q.2 < x.2 then some q else some x) = some p := hp
      obtain ⟨i, hi, hget, hmin, hstrict⟩ := ih q hq
      by_cases h3 : q.2 < x.2
      · rw [if_pos h3] at hp2
        injection hp2 with hp2
        subst hp2
        refine ⟨i + 1, by simpa using Nat.succ_lt_succ hi, by simpa using hget,
          ?_, ?_⟩
        · intro j hj
          cases j with
          | zero => simpa using h3.le
          | succ j' =>
            have hj' : j' < l.length := by simpa using hj
            simpa using hmin j' hj'
        · intro j hj hji
          cases j with
          | zero => simpa using h3
          | succ j' =>
            have hj' : j' < l.length := by simpa using hj
            have hji' : j' < i := by omega
            simpa using hstrict j' hj' hji'
      · rw [if_neg h3] at hp2
        injection hp2 with hp2
        subst hp2
        refine ⟨0, by simp, by simp, ?_, ?_⟩
        · intro j hj
          cases j with
          | zero => simp
          | succ j' =>
            have hj' : j' < l.length := by simpa using hj
            have hxq : x.2 ≤ q.2 := not_lt.mp h3
            simpa using hxq.trans (hmin j' hj')
        · intro j hj hji
          omega

theorem bestLoop_pairs (c : Country) :
    ∀ ds : List Location, (∀ d ∈ ds, ∃ r, c.nnTour d = .ok r) →
      ∃ pairs : List (Location × ℝ),
        pairs.map Prod.fst = ds ∧
        (∀ p ∈ pairs, ∃ tour, c.nnTour p.1 = .ok (tour, p.2)) ∧
        ∀ acc, bestLoop c ds acc = .ok (pairs.foldl bestStep acc) := by
  intro ds
  induction ds with
  | nil => exact fun _ => ⟨[], rfl, by simp, fun acc => rfl⟩
  | cons d ds ih =>
    intro h
    obtain ⟨r, hr⟩ := h d (List.mem_cons_self d ds)
    obtain ⟨tour, time⟩ := r
    obtain ⟨pairs, hmap, hall, hloop⟩ :=
      ih (fun d' hd' => h d' (List.mem_cons_of_mem d hd'))
    refine ⟨(d, time) :: pairs, by simp [hmap], ?_, fun acc => ?_⟩
    · intro p hp
      rcases List.mem_cons.mp hp with h1 | h1
      · subst h1
        exact ⟨tour, hr⟩
      · exact hall p h1
    · simp only [bestLoop, hr, hloop, List.foldl_cons]

/-- C2: for every Country with at least one depot, `best_depot_site` scans
the depots in ascending (name, region) order (a sorted permutation of the
depots) and returns the depot whose tour time is minimal, the earliest such
depot in the sorted order: every earlier depot in the scan has strictly
larger tour time, so later ties never replace the current best. -/
theorem claim_c2 (c : Country) (h : c.depots.isEmpty = false) :
    ∃ (pairs : List (Location × ℝ)) (i : ℕ) (hi : i < pairs.length),
      pairs.map Prod.fst = List.insertionSort locLe c.depots ∧
      (List.insertionSort locLe c.depots).Perm c.depots ∧
      List.Sorted locLe (List.insertionSort locLe c.depots) ∧
      (∀ p ∈ pairs, ∃ tour, c.nnTour p.1 = .ok (tour, p.2)) ∧
      c.bestDepotSite = .ok (some (pairs.get ⟨i, hi⟩).1) ∧
      (∀ j (hj : j < pairs.length),
        (pairs.get ⟨i, hi⟩).2 ≤ (pairs.get ⟨j, hj⟩).2) ∧
      (∀ j (hj : j < pairs.length), j < i →
        (pairs.get ⟨i, hi⟩).2 < (pairs.get ⟨j, hj⟩).2) := by
  have hex : ∀ d ∈ List.insertionSort locLe c.depots, ∃ r, c.nnTour d = .ok r := by
    intro d hd
    have hd' : d ∈ c.depots := (List.perm_insertionSort locLe c.depots).subset hd
    obtain ⟨mid, t, hh, _⟩ := nnTour_spec c d (eqMem_of_mem hd')
    exact ⟨_, hh⟩
  obtain ⟨pairs, hmap, hall, hloop⟩ := bestLoop_pairs c _ hex
  have hne : pairs ≠ [] := by
    intro h0
    rw [h0] at hmap
    have hdep : c.depots = [] := by
      have hperm := List.perm_insertionSort locLe c.depots
      rw [← hmap] at hperm
      exact hperm.symm.eq_nil
    rw [hdep] at h
    exact Bool.noConfusion h
  obtain ⟨p, hp⟩ := firstMin_isSome hne
  obtain ⟨i, hi, hget, hmin, hstrict⟩ := firstMin_spec pairs p hp
  refine ⟨pairs, i, hi, hmap, List.perm_insertionSort _ _,
    List.sorted_insertionSort _ _, hall, ?_,
    by rw [hget]; exact hmin, by rw [hget]; exact hstrict⟩
  have hfold : pairs.foldl bestStep Option.none = some p := by
    rw [foldl_bestStep_none, hp]
  unfold Country.bestDepotSite
  rw [if_neg (by simp [h])]
  simp only [hloop Option.none, hfold, hget]
  rfl

/-- C2 witness: the one-depot Country. -/
theorem claim_c2_witness :
    ∃ (pairs : List (Location × ℝ)) (i : ℕ) (hi : i < pairs.length),
      pairs.map Prod.fst = List.insertionSort locLe wCountry.depots ∧
      (List.insertionSort locLe wCountry.depots).Perm wCountry.depots ∧
      List.Sorted locLe (List.insertionSort locLe wCountry.depots) ∧
      (∀ p ∈ pairs, ∃ tour, wCountry.nnTour p.1 = .ok (tour, p.2)) ∧
      wCountry.bestDepotSite = .ok (some (pairs.get ⟨i, hi⟩).1) ∧
      (∀ j (hj : j < pairs.length),
        (pairs.get ⟨i, hi⟩).2 ≤ (pairs.get ⟨j, hj⟩).2) ∧
      (∀ j (hj : j < pairs.length), j < i →
        (pairs.get ⟨i, hi⟩).2 < (pairs.get ⟨j, hj⟩).2) :=
  claim_c2 wCountry rfl
